import Mathlib

/-!
Shallow embedding of the PromptEngine repository (TypeScript sources
`src/lib/TemplateEngine.ts`, `src/lib/PromptCache.ts`,
`src/utils/VariableDefinitions.ts`) and proofs about it.

Strings are modelled through their character lists; JavaScript `Map`
objects holding variable definitions are modelled as association lists,
and the mutable objects created by `new Map(...)` are placed in an
explicit heap so that copy-versus-alias behaviour is visible.
-/

namespace PromptEngine

/-! ## String machinery: JS `String.prototype.replaceAll` with a string
pattern, and the template scan `data.match(/{{(.*?)}}/g)`. -/

/-- `leadsWith pat s` : the character list `s` starts with `pat`. -/
def leadsWith : List Char → List Char → Bool
  | [], _ => true
  | _ :: _, [] => false
  | p :: ps, c :: cs => p == c && leadsWith ps cs

/-- `containsSub s pat` : `pat` occurs as a contiguous substring of `s`. -/
def containsSub : List Char → List Char → Bool
  | [], pat => leadsWith pat []
  | s@(_ :: rest), pat => leadsWith pat s || containsSub rest pat

/-- The backquote character, written by code point to keep it out of the
source text. -/
def substContextChar : Char := Char.ofNat 96

/-- The single-quote character, written by code point. -/
def substQuoteChar : Char := Char.ofNat 39

/-- ECMAScript `GetSubstitution` for a string search (no capture groups,
no named captures): `$$` yields `$`, `$&` the matched text, a dollar
followed by the backquote character the text preceding the match in the
subject string, a dollar followed by the single-quote character the text
following the match; any other dollar (including `$1`, `$<`, or a
trailing `$`) is literal, scanning resuming at the next character. -/
def getSubstitution (matched preceding following : List Char) :
    List Char → List Char
  | [] => []
  | [c] => [c]
  | c :: c2 :: rest2 =>
    if c = '$' then
      if c2 = '$' then
        '$' :: getSubstitution matched preceding following rest2
      else if c2 = '&' then
        matched ++ getSubstitution matched preceding following rest2
      else if c2 = substContextChar then
        preceding ++ getSubstitution matched preceding following rest2
      else if c2 = substQuoteChar then
        following ++ getSubstitution matched preceding following rest2
      else
        '$' :: getSubstitution matched preceding following (c2 :: rest2)
    else c :: getSubstitution matched preceding following (c2 :: rest2)

/-- Worker for `replaceAll`: scans left to right over the suffix at
position `pos` of the subject string `str`; `skip` counts characters
still belonging to an already-replaced match (dropped and not rescanned,
the non-overlapping left-to-right semantics of JavaScript
`String.prototype.replaceAll`). Each match inserts the `GetSubstitution`
of the replacement string, whose context is the subject string and the
match position. -/
def raGo (pat rep str : List Char) : List Char → Nat → Nat → List Char
  | [], _, _ => []
  | _ :: rest, pos, skip + 1 => raGo pat rep str rest (pos + 1) skip
  | c :: rest, pos, 0 =>
    if pat ≠ [] ∧ leadsWith pat (c :: rest) then
      getSubstitution pat (str.take pos) (str.drop (pos + pat.length)) rep ++
        raGo pat rep str rest (pos + 1) (pat.length - 1)
    else
      c :: raGo pat rep str rest (pos + 1) 0

/-- JS `s.replaceAll(pat, rep)` for a (non-empty, in all our uses) string
pattern: every non-overlapping occurrence, found left to right, is
replaced by the `GetSubstitution` of `rep` at that match. -/
def replaceAllS (s pat rep : String) : String :=
  String.mk (raGo pat.data rep.data s.data s.data 0 0)

/-- Characters matched by `.` in a JavaScript regex without the `s` flag
(everything except the four line terminators). -/
def isDotChar (c : Char) : Bool :=
  !(c == '\n' || c == '\r' || c.val == 0x2028 || c.val == 0x2029)

/-- Lazy search for the closing `}}` of `/{{(.*?)}}/`: starting right
after the opening braces, returns the (shortest) body consisting of
`.`-matchable characters together with the remainder after `}}`. -/
def findClose : List Char → Option (List Char × List Char)
  | [] => none
  | '}' :: '}' :: rest => some ([], rest)
  | c :: rest =>
    if isDotChar c then
      match findClose rest with
      | some (body, rem) => some (c :: body, rem)
      | none => none
    else none

/-- Worker for the global-regex scan `data.match(/{{(.*?)}}/g)`.
At each position (unless inside an already-matched span, counted by
`skip`) the engine tries to match `{{(.*?)}}`; on success the whole match
(delimiters included) is recorded and scanning resumes after it, on
failure scanning advances one character. -/
def scanGo : List Char → Nat → List (List Char)
  | [], _ => []
  | _ :: rest, skip + 1 => scanGo rest skip
  | '{' :: cs, 0 =>
    match cs with
    | '{' :: rest =>
      match findClose rest with
      | some (body, _) =>
        ('{' :: '{' :: (body ++ ['}', '}'])) :: scanGo cs (body.length + 3)
      | none => scanGo cs 0
    | _ => scanGo cs 0
  | _ :: rest, 0 => scanGo rest 0

/-- Deduplication keeping the first occurrence, as `new Set(array)` does. -/
def dedupFirstGo (seen : List String) : List String → List String
  | [] => []
  | x :: xs =>
    if x ∈ seen then dedupFirstGo seen xs
    else x :: dedupFirstGo (x :: seen) xs

/-- `TemplateEngine.findUniqueVariablesRequired` with the default pattern
`/{{(.*?)}}/g`: all matches of the pattern, deduplicated into a set
(modelled as a first-occurrence-ordered duplicate-free list). -/
def findUniqueVariablesRequired (promptFileData : String) : List String :=
  dedupFirstGo [] ((scanGo promptFileData.data 0).map String.mk)

/-! ## Variable maps (JS `Map<string, string>` contents). -/

/-- Contents of a JS `Map<string, string>`: an association list in
insertion order, keys unique in all states reachable through `vset`. -/
abbrev VMap := List (String × String)

/-- JS `Map.prototype.get` (first matching key; `none` = `undefined`). -/
def vget : VMap → String → Option String
  | [], _ => none
  | (k1, v1) :: rest, k => if k1 == k then some v1 else vget rest k

/-- JS `Map.prototype.set`: overwrite in place if the key is present,
append otherwise. -/
def vset : VMap → String → String → VMap
  | [], k, v => [(k, v)]
  | (k1, v1) :: rest, k, v =>
    if k1 == k then (k, v) :: rest else (k1, v1) :: vset rest k v

/-- `VariableDefinitions.hasVariable` (JS `Map.prototype.has`; for string
values this coincides with `get !== undefined`). -/
def vhas (m : VMap) (k : String) : Bool :=
  (vget m k).isSome

/-- `VariableDefinitions.setVariables` on a `Map` argument: iterate the
entries in order, `set`ting each one (later entries overwrite earlier). -/
def setVariables (base : VMap) : VMap → VMap
  | [] => base
  | (k, v) :: rest => setVariables (vset base k v) rest

/-! ## Heap of mutable `Map` objects (for the variable-definition maps
that `TemplateEngine` copies and mutates). -/

/-- A heap of JS `Map<string, string>` objects; a reference is an index. -/
structure Heap where
  cells : List VMap

/-- Dereference (out-of-range reads never occur in the modelled runs). -/
def Heap.read (h : Heap) (r : Nat) : VMap :=
  (h.cells[r]?).getD []

/-- `new Map(...)`: allocate a fresh object holding the given contents. -/
def Heap.alloc (h : Heap) (m : VMap) : Heap × Nat :=
  (⟨h.cells ++ [m]⟩, h.cells.length)

/-- Destructive update of one `Map` object. -/
def Heap.write (h : Heap) (r : Nat) (m : VMap) : Heap :=
  ⟨h.cells.set r m⟩

/-! ## PromptCache (`src/lib/PromptCache.ts`). -/

/-- `TemplateEngineErrorType` from `src/types/interfaces.ts`. -/
inductive Err where
  | initializationError
  | cacheError
  | fileNotFound
  | variableNotDefined
  | processingError
  | validationError
deriving DecidableEq

/-- State of the `PromptCache` singleton. -/
structure PromptCache where
  cache : VMap
  initialized : Bool
  promptsDirectory : String
  promptFileExtensions : List String
deriving DecidableEq

/-- Default constructor argument `promptsDirectory = 'src/prompts'`. -/
def defaultPromptsDirectory : String := "src/prompts"

/-- Default constructor argument for the extension filter. -/
def defaultExtensions : List String := [".txt", ".md", ".prompt"]

/-- `new PromptCache(promptsDirectory, promptFileExtensions)`: `none`
stands for a JS `undefined` argument, replaced by the default. -/
def mkPromptCache (dir : Option String) (exts : Option (List String)) : PromptCache :=
  { cache := []
    initialized := false
    promptsDirectory := dir.getD defaultPromptsDirectory
    promptFileExtensions := exts.getD defaultExtensions }

/-- `PromptCache.getInstance`: the module-level singleton field is passed
in and returned explicitly; when it already holds an instance the
arguments are not consulted at all. -/
def getInstance (inst : Option PromptCache) (dir : Option String)
    (exts : Option (List String)) : PromptCache × Option PromptCache :=
  match inst with
  | some pc => (pc, some pc)
  | none =>
    let pc := mkPromptCache dir exts
    (pc, some pc)

/-- `PromptCache.getPrompt`: synchronous cache lookup. -/
def getPrompt (pc : PromptCache) (fileName : String) : Except Err String :=
  if pc.initialized = false then
    .error .initializationError
  else
    match vget pc.cache fileName with
    | none => .error .fileNotFound
    | some content => .ok content

/-- `path.join(dir, file)` for the simple shapes used here. -/
def pathJoin (dir file : String) : String :=
  dir ++ "/" ++ file

/-- `PromptCache.getPromptWithFallback`: the file system is modelled as a
partial map from paths to contents; on a cache miss the configured path
is read and, on success, the content is cached (the updated cache state
is returned alongside the content). -/
def getPromptWithFallback (disk : String → Option String) (pc : PromptCache)
    (fileName : String) : Except Err (String × PromptCache) :=
  if pc.initialized = false then
    .error .initializationError
  else
    match vget pc.cache fileName with
    | some content => .ok (content, pc)
    | none =>
      match disk (pathJoin pc.promptsDirectory fileName) with
      | some diskContent =>
        .ok (diskContent, { pc with cache := vset pc.cache fileName diskContent })
      | none => .error .fileNotFound

/-- `PromptCache.hasPrompt`: plain membership test, no readiness check. -/
def hasPrompt (pc : PromptCache) (fileName : String) : Bool :=
  vhas pc.cache fileName

/-! ## TemplateEngine (`src/lib/TemplateEngine.ts`). -/

/-- `TemplateEngineConfig` (the fields the core logic consults). -/
structure TemplateEngineConfig where
  promptsDirectory : String
  variableDefinitions : VMap
  enableCaching : Option Bool := none
  promptFileExtensions : Option (List String) := none

/-- State of a `TemplateEngine` instance: its baseline
`VariableDefinitions` object lives on the heap at `baselineRef`. -/
structure TemplateEngine where
  baselineRef : Nat
  enableCaching : Bool
  initialized : Bool

/-- Process-global state: the heap of `Map` objects and the
`PromptCache.instance` static field. -/
structure Sys where
  heap : Heap
  storeInstance : Option PromptCache

/-- The `TemplateEngine` constructor: copies the configured variable
definitions into a fresh `Map` (the `VariableDefinitions` constructor
does `new Map(initialVariables)`) and calls `PromptCache.getInstance`
with the configured directory and extension filter. -/
def TemplateEngine.construct (sys : Sys) (config : TemplateEngineConfig) :
    TemplateEngine × Sys :=
  let a := sys.heap.alloc config.variableDefinitions
  let g := getInstance sys.storeInstance (some config.promptsDirectory)
    config.promptFileExtensions
  ({ baselineRef := a.2
     enableCaching := config.enableCaching.getD true
     initialized := false },
   { heap := a.1, storeInstance := g.2 })

/-- `ProcessingOptions` (`none` = field absent = `undefined`); the
variable pattern is the default `/{{(.*?)}}/g` throughout. -/
structure ProcessingOptions where
  strictMode : Option Bool := none
  validateVariables : Option Bool := none

/-- `TemplateProcessingResult`; the three JS `Set`s are modelled as
insertion-ordered lists. -/
structure TemplateProcessingResult where
  processedTemplate : String
  variablesFound : List String
  variablesReplaced : List String
  undefinedVariables : List String
deriving DecidableEq

deriving instance DecidableEq for Except

/-- JS `Set.prototype.add` on the list model. -/
def sAdd (s : List String) (x : String) : List String :=
  if x ∈ s then s else s ++ [x]

/-- Lines 161–165 of `TemplateEngine.ts`: build the per-request combined
variable map. `this.variableDefinitions.getVariableMap()` allocates a
copy of the baseline; the `VariableDefinitions` constructor copies it
again; `setVariables(overrides)` then mutates that fresh copy.
Returns the updated heap and the reference of the combined map. -/
def buildCombined (h : Heap) (e : TemplateEngine) (overrides : Option VMap) :
    Heap × Nat :=
  let a1 := h.alloc (h.read e.baselineRef)
  let a2 := a1.1.alloc (a1.1.read a1.2)
  match overrides with
  | some ov => (a2.1.write a2.2 (setVariables (a2.1.read a2.2) ov), a2.2)
  | none => a2

/-- The contents of the combined variable map a `processTemplate` call
builds and then reads from during validation and substitution. -/
def mergedMap (h : Heap) (e : TemplateEngine) (overrides : Option VMap) : VMap :=
  (buildCombined h e overrides).1.read (buildCombined h e overrides).2

/-- Lines 204–212 of `TemplateEngine.ts`: iterate over the discovered
token set; replace all occurrences of each defined token and record it
as replaced; record undefined tokens into the unresolved set. Returns
(final text, replaced set, unresolved set). -/
def substLoop (combined : VMap) :
    List String → String → List String → List String →
    String × List String × List String
  | [], text, rep, undef => (text, rep, undef)
  | v :: vs, text, rep, undef =>
    match vget combined v with
    | some value => substLoop combined vs (replaceAllS text v value) (sAdd rep v) undef
    | none => substLoop combined vs text rep (sAdd undef v)

/-- `TemplateEngine.processTemplate` (the implementation at lines
134–228, with the overloads already resolved: `variableOverrides` and
`options` are passed separately). The heap is threaded through because
the call allocates and mutates `Map` objects; the store state `pc` is
only read. -/
def processTemplate (pc : PromptCache) (h : Heap) (e : TemplateEngine)
    (promptFileName : String) (variableOverrides : Option VMap)
    (opts : ProcessingOptions) : Except Err TemplateProcessingResult × Heap :=
  if e.initialized = false then
    (.error .initializationError, h)
  else
    match getPrompt pc promptFileName with
    | .error err => (.error err, h)
    | .ok promptFileData =>
      let variablesFound := findUniqueVariablesRequired promptFileData
      let hc := buildCombined h e variableOverrides
      let combined := hc.1.read hc.2
      if variablesFound = [] then
        if opts.strictMode ≠ some false then
          (.error .validationError, hc.1)
        else
          (.ok { processedTemplate := promptFileData
                 variablesFound := variablesFound
                 variablesReplaced := []
                 undefinedVariables := [] }, hc.1)
      else
        let missing := variablesFound.filter (fun v => vhas combined v = false)
        if opts.validateVariables ≠ some false ∧ opts.strictMode ≠ some false ∧
            missing ≠ [] then
          (.error .variableNotDefined, hc.1)
        else
          let undef0 := if opts.validateVariables ≠ some false then missing else []
          let out := substLoop combined variablesFound promptFileData [] undef0
          (.ok { processedTemplate := out.1
                 variablesFound := variablesFound
                 variablesReplaced := out.2.1
                 undefinedVariables := out.2.2 }, hc.1)

/-- `TemplateEngine.getRequiredVariables`: fetches the template from the
store and scans it; the engine's own `initialized` flag is not consulted
(the method goes straight to `readPromptFile`). -/
def getRequiredVariables (pc : PromptCache) (e : TemplateEngine)
    (promptFileName : String) : Except Err (List String) :=
  match getPrompt pc promptFileName with
  | .error err => .error err
  | .ok promptFileData => .ok (findUniqueVariablesRequired promptFileData)

/-! ## Lemmas about variable maps. -/

theorem vget_vset_self (m : VMap) (k v : String) : vget (vset m k v) k = some v := by
  induction m with
  | nil => simp [vset, vget]
  | cons p rest ih =>
    obtain ⟨k1, v1⟩ := p
    by_cases hk : k1 = k
    · subst hk
      simp [vset, vget]
    · simp only [vset, vget, beq_iff_eq, if_neg hk]
      exact ih

theorem vget_vset_ne (m : VMap) (k1 k v : String) (hne : k1 ≠ k) :
    vget (vset m k1 v) k = vget m k := by
  induction m with
  | nil => simp [vset, vget, hne]
  | cons p rest ih =>
    obtain ⟨k2, v2⟩ := p
    by_cases hk : k2 = k1
    · subst hk
      simp [vset, vget, hne]
    · simp only [vset, beq_iff_eq, if_neg hk]
      by_cases hk2 : k2 = k
      · subst hk2
        simp [vget]
      · simp only [vget, beq_iff_eq, if_neg hk2]
        exact ih

theorem vget_append (l1 l2 : VMap) (k : String) :
    vget (l1 ++ l2) k =
      (match vget l1 k with
       | some v => some v
       | none => vget l2 k) := by
  induction l1 with
  | nil => simp [vget]
  | cons p rest ih =>
    obtain ⟨k1, v1⟩ := p
    by_cases hk : k1 = k
    · subst hk
      simp [vget]
    · simpa [vget, beq_iff_eq, if_neg hk] using ih

theorem setVariables_lookup_none (ov : VMap) :
    ∀ (base : VMap) (k : String), vget ov.reverse k = none →
      vget (setVariables base ov) k = vget base k := by
  induction ov with
  | nil => intro base k _; rfl
  | cons p rest ih =>
    obtain ⟨k0, v0⟩ := p
    intro base k hrev
    rw [List.reverse_cons, vget_append] at hrev
    rcases hwr : vget rest.reverse k with _ | b
    · rw [hwr] at hrev
      simp only [vget, beq_iff_eq] at hrev
      by_cases hk : k0 = k
      · simp [hk] at hrev
      · simp only [setVariables]
        rw [ih (vset base k0 v0) k hwr, vget_vset_ne base k0 k v0 hk]
    · rw [hwr] at hrev
      simp at hrev

theorem setVariables_lookup_some (ov : VMap) :
    ∀ (base : VMap) (k b : String), vget ov.reverse k = some b →
      vget (setVariables base ov) k = some b := by
  induction ov with
  | nil => intro base k b h; simp [vget] at h
  | cons p rest ih =>
    obtain ⟨k0, v0⟩ := p
    intro base k b hrev
    rw [List.reverse_cons, vget_append] at hrev
    rcases hwr : vget rest.reverse k with _ | b1
    · rw [hwr] at hrev
      simp only [vget, beq_iff_eq] at hrev
      by_cases hk : k0 = k
      · simp only [if_pos hk] at hrev
        obtain rfl := Option.some.inj hrev
        subst hk
        simp only [setVariables]
        rw [setVariables_lookup_none rest (vset base k0 v0) k0 hwr,
          vget_vset_self]
      · simp [hk] at hrev
    · rw [hwr] at hrev
      simp only [Option.some.injEq] at hrev
      subst hrev
      simp only [setVariables]
      exact ih (vset base k0 v0) k b1 hwr

theorem vhas_iff (m : VMap) (k : String) :
    vhas m k = true ↔ ∃ v, vget m k = some v := by
  simp [vhas, Option.isSome_iff_exists]

/-! ## Lemmas about the heap. -/

theorem Heap.read_alloc_self (h : Heap) (m : VMap) :
    (h.alloc m).1.read (h.alloc m).2 = m := by
  simp [Heap.alloc, Heap.read, List.getElem?_concat_length]

theorem Heap.read_alloc_lt (h : Heap) (m : VMap) (r : Nat)
    (hr : r < h.cells.length) : (h.alloc m).1.read r = h.read r := by
  simp [Heap.alloc, Heap.read, List.getElem?_append_left hr]

theorem Heap.read_write_self (h : Heap) (r : Nat) (m : VMap)
    (hr : r < h.cells.length) : (h.write r m).read r = m := by
  simp [Heap.write, Heap.read, List.getElem?_set_eq_of_lt _ hr]

theorem Heap.read_write_ne (h : Heap) (r1 r : Nat) (m : VMap)
    (hne : r1 ≠ r) : (h.write r1 m).read r = h.read r := by
  simp [Heap.write, Heap.read, List.getElem?_set_ne hne]

theorem Heap.alloc_cells_length (h : Heap) (m : VMap) :
    (h.alloc m).1.cells.length = h.cells.length + 1 := by
  simp [Heap.alloc]

/-- The per-request combined map never touches pre-existing cells: reads
of any old reference are unchanged. -/
theorem buildCombined_frame (h : Heap) (e : TemplateEngine) (ov : Option VMap)
    (r : Nat) (hr : r < h.cells.length) :
    (buildCombined h e ov).1.read r = h.read r := by
  have h1 : r < (h.alloc (h.read e.baselineRef)).1.cells.length := by
    rw [Heap.alloc_cells_length]; omega
  cases ov with
  | none =>
    simp only [buildCombined]
    rw [Heap.read_alloc_lt _ _ _ h1, Heap.read_alloc_lt _ _ _ hr]
  | some o =>
    simp only [buildCombined]
    rw [Heap.read_write_ne, Heap.read_alloc_lt _ _ _ h1,
      Heap.read_alloc_lt _ _ _ hr]
    simp only [Heap.alloc, List.length_append, List.length_cons,
      List.length_nil]
    omega

/-- The combined map a request builds is exactly the baseline contents
with the override entries applied on top. -/
theorem mergedMap_eq (h : Heap) (e : TemplateEngine) :
    ∀ ov : Option VMap,
      mergedMap h e ov =
        (match ov with
         | some o => setVariables (h.read e.baselineRef) o
         | none => h.read e.baselineRef) := by
  intro ov
  cases ov with
  | none =>
    simp only [mergedMap, buildCombined]
    rw [Heap.read_alloc_self, Heap.read_alloc_self]
  | some o =>
    simp only [mergedMap, buildCombined]
    rw [Heap.read_write_self, Heap.read_alloc_self, Heap.read_alloc_self]
    simp [Heap.alloc]

/-! ## Lemmas about the substitution loop. -/

theorem mem_sAdd (s : List String) (x y : String) :
    x ∈ sAdd s y ↔ x ∈ s ∨ x = y := by
  by_cases hy : y ∈ s
  · simp only [sAdd, if_pos hy]
    constructor
    · exact Or.inl
    · rintro (hx | rfl)
      · exact hx
      · exact hy
  · simp [sAdd, if_neg hy]

theorem substLoop_replaced_mem (c : VMap) :
    ∀ (vs : List String) (text : String) (rep undef : List String) (x : String),
      x ∈ (substLoop c vs text rep undef).2.1 ↔
        x ∈ rep ∨ (x ∈ vs ∧ vhas c x = true) := by
  intro vs
  induction vs with
  | nil => intro text rep undef x; simp [substLoop]
  | cons v vs ih =>
    intro text rep undef x
    rcases hv : vget c v with _ | value
    · simp only [substLoop, hv]
      rw [ih]
      constructor
      · rintro (hx | ⟨hx, hhas⟩)
        · exact Or.inl hx
        · exact Or.inr ⟨List.mem_cons_of_mem _ hx, hhas⟩
      · rintro (hx | ⟨hx, hhas⟩)
        · exact Or.inl hx
        · rcases List.mem_cons.mp hx with rfl | hx
          · exact absurd hhas (by simp [vhas, hv])
          · exact Or.inr ⟨hx, hhas⟩
    · simp only [substLoop, hv]
      rw [ih]
      constructor
      · rintro (hx | ⟨hx, hhas⟩)
        · rcases (mem_sAdd rep x v).mp hx with hx | rfl
          · exact Or.inl hx
          · exact Or.inr ⟨List.mem_cons_self _ _, by simp [vhas, hv]⟩
        · exact Or.inr ⟨List.mem_cons_of_mem _ hx, hhas⟩
      · rintro (hx | ⟨hx, hhas⟩)
        · exact Or.inl ((mem_sAdd rep x v).mpr (Or.inl hx))
        · rcases List.mem_cons.mp hx with rfl | hx
          · exact Or.inl ((mem_sAdd rep x x).mpr (Or.inr rfl))
          · exact Or.inr ⟨hx, hhas⟩

theorem substLoop_undef_mem (c : VMap) :
    ∀ (vs : List String) (text : String) (rep undef : List String) (x : String),
      x ∈ (substLoop c vs text rep undef).2.2 ↔
        x ∈ undef ∨ (x ∈ vs ∧ vhas c x = false) := by
  intro vs
  induction vs with
  | nil => intro text rep undef x; simp [substLoop]
  | cons v vs ih =>
    intro text rep undef x
    rcases hv : vget c v with _ | value
    · simp only [substLoop, hv]
      rw [ih]
      constructor
      · rintro (hx | ⟨hx, hhas⟩)
        · rcases (mem_sAdd undef x v).mp hx with hx | rfl
          · exact Or.inl hx
          · exact Or.inr ⟨List.mem_cons_self _ _, by simp [vhas, hv]⟩
        · exact Or.inr ⟨List.mem_cons_of_mem _ hx, hhas⟩
      · rintro (hx | ⟨hx, hhas⟩)
        · exact Or.inl ((mem_sAdd undef x v).mpr (Or.inl hx))
        · rcases List.mem_cons.mp hx with rfl | hx
          · exact Or.inl ((mem_sAdd undef x x).mpr (Or.inr rfl))
          · exact Or.inr ⟨hx, hhas⟩
    · simp only [substLoop, hv]
      rw [ih]
      constructor
      · rintro (hx | ⟨hx, hhas⟩)
        · exact Or.inl hx
        · exact Or.inr ⟨List.mem_cons_of_mem _ hx, hhas⟩
      · rintro (hx | ⟨hx, hhas⟩)
        · exact Or.inl hx
        · rcases List.mem_cons.mp hx with rfl | hx
          · exact absurd hhas (by simp [vhas, hv])
          · exact Or.inr ⟨hx, hhas⟩

/-- When the token list is a single defined token, the loop is one
`replaceAll` application. -/
theorem substLoop_single (c : VMap) (v value : String) (text : String)
    (undef : List String) (hv : vget c v = some value) :
    substLoop c [v] text [] undef =
      (replaceAllS text v value, [v], undef) := by
  simp [substLoop, hv, sAdd]

/-! ## Lemmas about `replaceAll`. -/

theorem leadsWith_append_self (pat t : List Char) :
    leadsWith pat (pat ++ t) = true := by
  induction pat with
  | nil => rfl
  | cons p ps ih => simp [leadsWith, ih]

theorem raGo_skip_exact (pat rep str : List Char) :
    ∀ (u t : List Char) (pos : Nat),
      raGo pat rep str (u ++ t) pos u.length =
        raGo pat rep str t (pos + u.length) 0 := by
  intro u
  induction u with
  | nil => intro t pos; rfl
  | cons c u ih =>
    intro t pos
    simp only [List.cons_append, List.length_cons, raGo, List.append_eq]
    rw [ih t (pos + 1)]
    congr 1
    omega

theorem containsSub_of_leadsWith (s pat : List Char)
    (h : leadsWith pat s = true) : containsSub s pat = true := by
  cases s with
  | nil => simpa [containsSub] using h
  | cons c rest => simp [containsSub, h]

theorem containsSub_tail (c : Char) (s pat : List Char)
    (h : containsSub (c :: s) pat = false) : containsSub s pat = false := by
  simp only [containsSub, Bool.or_eq_false_iff] at h
  exact h.2

theorem leadsWith_false_of_not_contains (c : Char) (s pat : List Char)
    (h : containsSub (c :: s) pat = false) : leadsWith pat (c :: s) = false := by
  simp only [containsSub, Bool.or_eq_false_iff] at h
  exact h.1

/-- A string with no occurrence of the pattern is left unchanged. -/
theorem raGo_no_occurrence (pat rep str : List Char) :
    ∀ (t : List Char) (pos : Nat), containsSub t pat = false →
      raGo pat rep str t pos 0 = t := by
  intro t
  induction t with
  | nil => intro _ _; rfl
  | cons c rest ih =>
    intro pos h
    have hlw := leadsWith_false_of_not_contains c rest pat h
    simp only [raGo, hlw, and_false, if_false, Bool.false_eq_true, ne_eq]
    rw [ih (pos + 1) (containsSub_tail c rest pat h)]

theorem raGo_cons_nomatch (pat rep str : List Char) (c : Char)
    (rest : List Char) (pos : Nat)
    (h : leadsWith pat (c :: rest) = false) :
    raGo pat rep str (c :: rest) pos 0 =
      c :: raGo pat rep str rest (pos + 1) 0 := by
  simp [raGo, h]

theorem raGo_head_match (pat rep str t : List Char) (pos : Nat)
    (hp : pat ≠ []) :
    raGo pat rep str (pat ++ t) pos 0 =
      getSubstitution pat (str.take pos) (str.drop (pos + pat.length)) rep ++
        raGo pat rep str t (pos + pat.length) 0 := by
  cases pat with
  | nil => exact absurd rfl hp
  | cons p ps =>
    have hlw : leadsWith (p :: ps) (p :: (ps ++ t)) = true := by
      simpa using leadsWith_append_self (p :: ps) t
    rw [List.cons_append]
    show (if ¬(p :: ps) = [] ∧ leadsWith (p :: ps) (p :: (ps ++ t)) = true then
        getSubstitution (p :: ps) (str.take pos)
            (str.drop (pos + (p :: ps).length)) rep ++
          raGo (p :: ps) rep str (ps ++ t) (pos + 1) ((p :: ps).length - 1)
      else p :: raGo (p :: ps) rep str (ps ++ t) (pos + 1) 0) = _
    rw [if_pos ⟨by simp, hlw⟩]
    have hlen : (p :: ps).length - 1 = ps.length := by simp
    rw [hlen, raGo_skip_exact (p :: ps) rep str ps t (pos + 1)]
    have harith : pos + 1 + ps.length = pos + (p :: ps).length := by
      simp only [List.length_cons]
      omega
    rw [harith]

/-- If no occurrence of the (non-empty) pattern starts inside `A`, the
leftmost occurrence is the explicit one right after `A`, and `replaceAll`
substitutes it and carries on after it. -/
theorem raGo_split (pat rep str : List Char) (hp : pat ≠ []) :
    ∀ (A t : List Char) (pos : Nat),
      (∀ i, i < A.length → leadsWith pat ((A ++ pat ++ t).drop i) = false) →
      raGo pat rep str (A ++ pat ++ t) pos 0 =
        A ++ getSubstitution pat (str.take (pos + A.length))
            (str.drop (pos + A.length + pat.length)) rep ++
          raGo pat rep str t (pos + A.length + pat.length) 0 := by
  intro A
  induction A with
  | nil =>
    intro t pos _
    simpa using raGo_head_match pat rep str t pos hp
  | cons c A ih =>
    intro t pos hno
    have h0 : leadsWith pat (c :: (A ++ pat ++ t)) = false := by
      simpa using hno 0 (by simp)
    rw [List.cons_append, List.cons_append,
      raGo_cons_nomatch pat rep str c _ pos h0,
      ih t (pos + 1) (fun i hi => by
        simpa using hno (i + 1) (by simpa using Nat.succ_lt_succ hi))]
    have h1 : pos + 1 + A.length = pos + (c :: A).length := by
      simp only [List.length_cons]
      omega
    rw [h1]
    rfl

/-! ## Branch characterizations of `processTemplate`. -/

/-- Folding lemma: the combined map read back inside `processTemplate`
is `mergedMap`. -/
theorem mergedMap_def (h : Heap) (e : TemplateEngine) (ov : Option VMap) :
    (buildCombined h e ov).1.read (buildCombined h e ov).2 = mergedMap h e ov :=
  rfl

theorem processTemplate_zero_strict (pc : PromptCache) (h : Heap)
    (e : TemplateEngine) (f : String) (ov : Option VMap)
    (opts : ProcessingOptions) (data : String)
    (he : e.initialized = true) (hok : getPrompt pc f = .ok data)
    (hz : findUniqueVariablesRequired data = [])
    (hs : opts.strictMode ≠ some false) :
    processTemplate pc h e f ov opts =
      (.error .validationError, (buildCombined h e ov).1) := by
  rw [processTemplate, he, if_neg (by simp), hok]
  simp [hz, hs]

theorem processTemplate_zero_lax (pc : PromptCache) (h : Heap)
    (e : TemplateEngine) (f : String) (ov : Option VMap)
    (opts : ProcessingOptions) (data : String)
    (he : e.initialized = true) (hok : getPrompt pc f = .ok data)
    (hz : findUniqueVariablesRequired data = [])
    (hs : opts.strictMode = some false) :
    processTemplate pc h e f ov opts =
      (.ok { processedTemplate := data
             variablesFound := []
             variablesReplaced := []
             undefinedVariables := [] }, (buildCombined h e ov).1) := by
  rw [processTemplate, he, if_neg (by simp), hok]
  simp [hz, hs]

theorem processTemplate_vnd (pc : PromptCache) (h : Heap)
    (e : TemplateEngine) (f : String) (ov : Option VMap)
    (opts : ProcessingOptions) (data : String)
    (he : e.initialized = true) (hok : getPrompt pc f = .ok data)
    (hne : findUniqueVariablesRequired data ≠ [])
    (hfail : opts.validateVariables ≠ some false ∧ opts.strictMode ≠ some false ∧
      (findUniqueVariablesRequired data).filter
        (fun v => vhas (mergedMap h e ov) v = false) ≠ []) :
    processTemplate pc h e f ov opts =
      (.error .variableNotDefined, (buildCombined h e ov).1) := by
  rw [processTemplate, he, if_neg (by simp), hok]
  simp only [mergedMap_def]
  rw [if_neg hne, if_pos hfail]

theorem processTemplate_subst (pc : PromptCache) (h : Heap)
    (e : TemplateEngine) (f : String) (ov : Option VMap)
    (opts : ProcessingOptions) (data : String)
    (he : e.initialized = true) (hok : getPrompt pc f = .ok data)
    (hne : findUniqueVariablesRequired data ≠ [])
    (hpass : ¬(opts.validateVariables ≠ some false ∧ opts.strictMode ≠ some false ∧
      (findUniqueVariablesRequired data).filter
        (fun v => vhas (mergedMap h e ov) v = false) ≠ [])) :
    processTemplate pc h e f ov opts =
      (.ok { processedTemplate :=
               (substLoop (mergedMap h e ov) (findUniqueVariablesRequired data)
                 data []
                 (if opts.validateVariables ≠ some false then
                   (findUniqueVariablesRequired data).filter
                     (fun v => vhas (mergedMap h e ov) v = false)
                  else [])).1
             variablesFound := findUniqueVariablesRequired data
             variablesReplaced :=
               (substLoop (mergedMap h e ov) (findUniqueVariablesRequired data)
                 data []
                 (if opts.validateVariables ≠ some false then
                   (findUniqueVariablesRequired data).filter
                     (fun v => vhas (mergedMap h e ov) v = false)
                  else [])).2.1
             undefinedVariables :=
               (substLoop (mergedMap h e ov) (findUniqueVariablesRequired data)
                 data []
                 (if opts.validateVariables ≠ some false then
                   (findUniqueVariablesRequired data).filter
                     (fun v => vhas (mergedMap h e ov) v = false)
                  else [])).2.2 },
       (buildCombined h e ov).1) := by
  rw [processTemplate, he, if_neg (by simp), hok]
  simp only [mergedMap_def]
  rw [if_neg hne, if_neg hpass]

/-- A `processTemplate` call never writes to any pre-existing heap cell:
it only allocates fresh copies and mutates those. -/
theorem processTemplate_heap_frame (pc : PromptCache) (h : Heap)
    (e : TemplateEngine) (f : String) (ov : Option VMap)
    (opts : ProcessingOptions) (r : Nat) (hr : r < h.cells.length) :
    ((processTemplate pc h e f ov opts).2).read r = h.read r := by
  simp only [processTemplate]
  split
  · rfl
  · split
    · rfl
    · split
      · split
        · exact buildCombined_frame h e ov r hr
        · exact buildCombined_frame h e ov r hr
      · split
        · exact buildCombined_frame h e ov r hr
        · exact buildCombined_frame h e ov r hr

/-- Membership in the unresolved set produced by the substitution stage
(including the tokens pre-recorded by the non-strict validation path). -/
theorem substResult_undef_mem (c : VMap) (found : List String) (data : String)
    (P : Prop) [Decidable P] (x : String) :
    x ∈ (substLoop c found data []
      (if P then found.filter (fun v => vhas c v = false) else [])).2.2 ↔
      (x ∈ found ∧ vhas c x = false) := by
  rw [substLoop_undef_mem]
  constructor
  · rintro (hx | hx)
    · by_cases hP : P
      · rw [if_pos hP] at hx
        have hm := List.mem_filter.mp hx
        exact ⟨hm.1, by simpa using hm.2⟩
      · rw [if_neg hP] at hx
        simp at hx
    · exact hx
  · intro hx
    exact Or.inr hx

/-- Membership in the replaced set produced by the substitution stage. -/
theorem substResult_rep_mem (c : VMap) (found : List String) (data : String)
    (P : Prop) [Decidable P] (x : String) :
    x ∈ (substLoop c found data []
      (if P then found.filter (fun v => vhas c v = false) else [])).2.1 ↔
      (x ∈ found ∧ vhas c x = true) := by
  rw [substLoop_replaced_mem]
  simp

/-! ## The claims. -/

/-- Claim C1: for a template whose discovered token set is non-empty,
with `validateVariables` enabled and at least one discovered token
missing from the merged mapping: with `strictMode` enabled
`processTemplate` fails with `VariableNotDefined`; with `strictMode`
disabled the missing tokens are recorded in the result's
`undefinedVariables` set and substitution proceeds for the defined
tokens (they land in `variablesReplaced`). -/
theorem claimC1 (pc : PromptCache) (h : Heap) (e : TemplateEngine)
    (f : String) (ov : Option VMap) (opts : ProcessingOptions)
    (data v0 : String)
    (he : e.initialized = true) (hok : getPrompt pc f = .ok data)
    (hne : findUniqueVariablesRequired data ≠ [])
    (hval : opts.validateVariables ≠ some false)
    (hv0 : v0 ∈ findUniqueVariablesRequired data)
    (hmiss : vhas (mergedMap h e ov) v0 = false) :
    (opts.strictMode ≠ some false →
      (processTemplate pc h e f ov opts).1 = .error .variableNotDefined) ∧
    (opts.strictMode = some false →
      ∃ r, (processTemplate pc h e f ov opts).1 = .ok r ∧
        (∀ v ∈ findUniqueVariablesRequired data,
          vhas (mergedMap h e ov) v = false → v ∈ r.undefinedVariables) ∧
        (∀ v ∈ findUniqueVariablesRequired data,
          vhas (mergedMap h e ov) v = true → v ∈ r.variablesReplaced)) := by
  have hmem : v0 ∈ (findUniqueVariablesRequired data).filter
      (fun v => vhas (mergedMap h e ov) v = false) :=
    List.mem_filter.mpr ⟨hv0, by simpa using hmiss⟩
  constructor
  · intro hs
    rw [processTemplate_vnd pc h e f ov opts data he hok hne
      ⟨hval, hs, List.ne_nil_of_mem hmem⟩]
  · intro hs
    rw [processTemplate_subst pc h e f ov opts data he hok hne
      (fun hc => hc.2.1 hs)]
    refine ⟨_, rfl, ?_, ?_⟩
    · intro v hv hvm
      exact (substResult_undef_mem _ _ _ _ v).mpr ⟨hv, hvm⟩
    · intro v hv hvm
      exact (substResult_rep_mem _ _ _ _ v).mpr ⟨hv, hvm⟩

/-- Claim C2: whenever `processTemplate` returns a result and the
discovered token set is non-empty (i.e. substitution ran),
`variablesReplaced` and `undefinedVariables` are disjoint and their
union is `variablesFound`: every discovered token lands in exactly one
of the two sets. -/
theorem claimC2 (pc : PromptCache) (h : Heap) (e : TemplateEngine)
    (f : String) (ov : Option VMap) (opts : ProcessingOptions)
    (r : TemplateProcessingResult)
    (hok : (processTemplate pc h e f ov opts).1 = .ok r)
    (hne : r.variablesFound ≠ []) (x : String) :
    (x ∈ r.variablesFound ↔
      (x ∈ r.variablesReplaced ∨ x ∈ r.undefinedVariables)) ∧
    ¬(x ∈ r.variablesReplaced ∧ x ∈ r.undefinedVariables) := by
  by_cases he : e.initialized = true
  case neg =>
    rw [processTemplate, if_pos (by simpa using he)] at hok
    simp at hok
  case pos =>
  rcases hgp : getPrompt pc f with err | data
  case error =>
    rw [processTemplate, he, if_neg (by simp), hgp] at hok
    simp at hok
  case ok =>
  by_cases hz : findUniqueVariablesRequired data = []
  case pos =>
    by_cases hs : opts.strictMode = some false
    · rw [processTemplate_zero_lax pc h e f ov opts data he hgp hz hs] at hok
      simp only [Except.ok.injEq] at hok
      subst hok
      simp at hne
    · rw [processTemplate_zero_strict pc h e f ov opts data he hgp hz hs] at hok
      simp at hok
  case neg =>
  by_cases hfail : opts.validateVariables ≠ some false ∧
      opts.strictMode ≠ some false ∧
      (findUniqueVariablesRequired data).filter
        (fun v => vhas (mergedMap h e ov) v = false) ≠ []
  case pos =>
    rw [processTemplate_vnd pc h e f ov opts data he hgp hz hfail] at hok
    simp at hok
  case neg =>
  rw [processTemplate_subst pc h e f ov opts data he hgp hz hfail] at hok
  obtain rfl := (Except.ok.inj hok).symm
  simp only [substResult_rep_mem, substResult_undef_mem]
  constructor
  · constructor
    · intro hx
      rcases hhas : vhas (mergedMap h e ov) x with _ | _
      · exact Or.inr ⟨hx, rfl⟩
      · exact Or.inl ⟨hx, rfl⟩
    · rintro (⟨hx, _⟩ | ⟨hx, _⟩) <;> exact hx
  · rintro ⟨⟨_, h1⟩, ⟨_, h2⟩⟩
    rw [h1] at h2
    exact Bool.noConfusion h2

/-- Claim C3: for a template with zero placeholder tokens, with
`strictMode` enabled (the default) `processTemplate` fails with
`ValidationError`; with `strictMode` disabled it returns the original
text unchanged with all three token sets empty. -/
theorem claimC3 (pc : PromptCache) (h : Heap) (e : TemplateEngine)
    (f : String) (ov : Option VMap) (opts : ProcessingOptions)
    (data : String)
    (he : e.initialized = true) (hok : getPrompt pc f = .ok data)
    (hz : findUniqueVariablesRequired data = []) :
    (opts.strictMode ≠ some false →
      (processTemplate pc h e f ov opts).1 = .error .validationError) ∧
    (opts.strictMode = some false →
      (processTemplate pc h e f ov opts).1 =
        .ok { processedTemplate := data
              variablesFound := []
              variablesReplaced := []
              undefinedVariables := [] }) := by
  constructor
  · intro hs
    rw [processTemplate_zero_strict pc h e f ov opts data he hok hz hs]
  · intro hs
    rw [processTemplate_zero_lax pc h e f ov opts data he hok hz hs]

/-- Claim C10: whenever `processTemplate` fails with any error, the
engine's baseline variable definitions are unchanged (the call mutates
only freshly allocated per-request copies). -/
theorem claimC10 (pc : PromptCache) (h : Heap) (e : TemplateEngine)
    (f : String) (ov : Option VMap) (opts : ProcessingOptions) (err : Err)
    (hr : e.baselineRef < h.cells.length)
    (herr : (processTemplate pc h e f ov opts).1 = .error err) :
    ((processTemplate pc h e f ov opts).2).read e.baselineRef =
      h.read e.baselineRef :=
  processTemplate_heap_frame pc h e f ov opts e.baselineRef hr

/-- Interleave a pattern between consecutive segments: for segments
`[s0, s1, …, sn]` this is `s0 ++ pat ++ s1 ++ pat ++ … ++ pat ++ sn`,
a text containing `n` designated occurrences of the pattern. -/
def sprinkle (pat : List Char) : List (List Char) → List Char
  | [] => []
  | [s] => s
  | s :: rest => s ++ pat ++ sprinkle pat rest

/-- The decomposition is tight: the pattern has no occurrence other than
the designated ones (no match starts inside any gap segment). -/
def sprinkleOK (pat : List Char) : List (List Char) → Bool
  | [] => true
  | [s] => !containsSub s pat
  | s :: rest =>
    ((List.range s.length).all fun i =>
      !leadsWith pat ((sprinkle pat (s :: rest)).drop i)) &&
    sprinkleOK pat rest

/-- The text obtained by substituting every designated occurrence of the
pattern in a decomposed text: each occurrence receives the
`GetSubstitution` of the replacement, whose context is the subject
string `str` and the occurrence's position (`pos` is the position in
`str` where the decomposition starts). -/
def sprinkleSub (pat rep str : List Char) : Nat → List (List Char) → List Char
  | _, [] => []
  | _, [s] => s
  | pos, s :: rest =>
    s ++ getSubstitution pat (str.take (pos + s.length))
        (str.drop (pos + s.length + pat.length)) rep ++
      sprinkleSub pat rep str (pos + s.length + pat.length) rest

/-- `replaceAll` rewrites every designated occurrence of the pattern,
each with the `GetSubstitution` of the replacement at that position. -/
theorem raGo_sprinkle (pat rep str : List Char) (hp : pat ≠ []) :
    ∀ (segs : List (List Char)) (pos : Nat), sprinkleOK pat segs = true →
      raGo pat rep str (sprinkle pat segs) pos 0 =
        sprinkleSub pat rep str pos segs := by
  intro segs
  induction segs with
  | nil => intro _ _; rfl
  | cons s rest ih =>
    cases rest with
    | nil =>
      intro pos hOK
      refine raGo_no_occurrence pat rep str s pos ?_
      simpa [sprinkleOK] using hOK
    | cons s2 rest2 =>
      intro pos hOK
      simp only [sprinkleOK, Bool.and_eq_true, List.all_eq_true,
        List.mem_range] at hOK
      show raGo pat rep str (s ++ pat ++ sprinkle pat (s2 :: rest2)) pos 0 =
        s ++ getSubstitution pat (str.take (pos + s.length))
            (str.drop (pos + s.length + pat.length)) rep ++
          sprinkleSub pat rep str (pos + s.length + pat.length) (s2 :: rest2)
      rw [raGo_split pat rep str hp s (sprinkle pat (s2 :: rest2)) pos
        (fun i hi => by simpa [sprinkle] using hOK.1 i hi),
        ih (pos + s.length + pat.length) hOK.2]

/-- A replacement string containing no dollar sign is inserted
literally. -/
theorem getSubstitution_no_dollar (matched preceding following : List Char) :
    ∀ rep : List Char, '$' ∉ rep →
      getSubstitution matched preceding following rep = rep := by
  intro rep
  induction rep with
  | nil => intro _; rfl
  | cons c rest ih =>
    intro h
    have hc : ¬(c = '$') := fun hh => h (hh ▸ List.mem_cons_self c rest)
    cases rest with
    | nil => rfl
    | cons c2 rest2 =>
      simp only [getSubstitution, if_neg hc]
      rw [ih (fun hm => h (List.mem_cons_of_mem _ hm))]

/-- With a dollar-free replacement, every designated occurrence receives
the replacement itself. -/
theorem sprinkleSub_no_dollar (pat rep str : List Char) (h : '$' ∉ rep) :
    ∀ (segs : List (List Char)) (pos : Nat),
      sprinkleSub pat rep str pos segs = sprinkle rep segs := by
  intro segs
  induction segs with
  | nil => intro _; rfl
  | cons s rest ih =>
    cases rest with
    | nil => intro _; rfl
    | cons s2 rest2 =>
      intro pos
      show s ++ getSubstitution pat (str.take (pos + s.length))
          (str.drop (pos + s.length + pat.length)) rep ++
        sprinkleSub pat rep str (pos + s.length + pat.length) (s2 :: rest2) =
        s ++ rep ++ sprinkle rep (s2 :: rest2)
      rw [getSubstitution_no_dollar _ _ _ rep h, ih (pos + s.length + pat.length)]

/-- The final text of the substitution loop along a per-step
decomposition script: one segment list per discovered token, in loop
order; a defined token's step substitutes every designated occurrence,
an undefined token's step leaves the text alone. -/
def loopFinal (c : VMap) :
    List String → List (List (List Char)) → String → String
  | [], _, t => t
  | _ :: _, [], t => t
  | v :: vs, sg :: sgs, t =>
    match vget c v with
    | none => loopFinal c vs sgs t
    | some val =>
      loopFinal c vs sgs (String.mk (sprinkleSub v.data val.data t.data 0 sg))

/-- Checks a decomposition script against the loop's trajectory: at each
defined token's turn the current text must decompose into that token's
designated occurrences with no stray occurrence elsewhere. -/
def loopOK (c : VMap) :
    List String → List (List (List Char)) → String → Bool
  | [], [], _ => true
  | v :: vs, sg :: sgs, t =>
    (match vget c v with
     | none => loopOK c vs sgs t
     | some val =>
       decide (t.data = sprinkle v.data sg) && sprinkleOK v.data sg &&
         decide (v.data ≠ []) &&
         loopOK c vs sgs (String.mk (sprinkleSub v.data val.data t.data 0 sg)))
  | _, _, _ => false

/-- Along a valid script, the substitution loop's output text is the
step-by-step occurrence-wise substitution. -/
theorem substLoop_text (c : VMap) :
    ∀ (vs : List String) (sgs : List (List (List Char))) (t : String)
      (rep undef : List String), loopOK c vs sgs t = true →
      (substLoop c vs t rep undef).1 = loopFinal c vs sgs t := by
  intro vs
  induction vs with
  | nil =>
    intro sgs t rep undef hOK
    cases sgs with
    | nil => rfl
    | cons sg sgs => simp [loopOK] at hOK
  | cons v vs ih =>
    intro sgs t rep undef hOK
    cases sgs with
    | nil =>
      rcases hv : vget c v with _ | val <;> simp [loopOK, hv] at hOK
    | cons sg sgs =>
      rcases hv : vget c v with _ | val
      · simp only [loopOK, hv] at hOK
        simp only [substLoop, hv, loopFinal]
        exact ih sgs t rep (sAdd undef v) hOK
      · simp only [loopOK, hv, Bool.and_eq_true, decide_eq_true_eq] at hOK
        obtain ⟨⟨⟨ht, hsOK⟩, hvne⟩, hrest⟩ := hOK
        simp only [substLoop, hv, loopFinal]
        have hrepl : replaceAllS t v val =
            String.mk (sprinkleSub v.data val.data t.data 0 sg) := by
          simp only [replaceAllS]
          rw [show t.data = sprinkle v.data sg from ht,
            raGo_sprinkle v.data val.data (sprinkle v.data sg) hvne sg 0 hsOK]
        rw [hrepl]
        exact ih sgs _ _ undef hrest

/-- Claim C4 (amended): for every discovered token that is defined in
the merged mapping, `processTemplate` replaces all literal occurrences
of that exact token text at that token's substitution step — not only
the first occurrence — each occurrence receiving the ECMAScript
`GetSubstitution` expansion of the token's value (the value itself
whenever the value contains no dollar sign): for any number of
discovered tokens, when each defined token's turn finds the current text
decomposed into its designated occurrences, the final text is the
step-by-step occurrence-wise substitution, and every defined token is
recorded as replaced. -/
theorem claimC4 (pc : PromptCache) (h : Heap) (e : TemplateEngine)
    (f : String) (ov : Option VMap) (opts : ProcessingOptions)
    (data final : String) (sgs : List (List (List Char)))
    (he : e.initialized = true) (hok : getPrompt pc f = .ok data)
    (hne : findUniqueVariablesRequired data ≠ [])
    (hpass : ¬(opts.validateVariables ≠ some false ∧
      opts.strictMode ≠ some false ∧
      (findUniqueVariablesRequired data).filter
        (fun x => vhas (mergedMap h e ov) x = false) ≠ []))
    (hscript : loopOK (mergedMap h e ov)
      (findUniqueVariablesRequired data) sgs data = true)
    (hfinal : loopFinal (mergedMap h e ov)
      (findUniqueVariablesRequired data) sgs data = final) :
    ∃ r, (processTemplate pc h e f ov opts).1 = .ok r ∧
      r.processedTemplate = final ∧
      (∀ v ∈ findUniqueVariablesRequired data,
        vhas (mergedMap h e ov) v = true → v ∈ r.variablesReplaced) := by
  rw [processTemplate_subst pc h e f ov opts data he hok hne hpass]
  refine ⟨_, rfl, ?_, ?_⟩
  · show (substLoop (mergedMap h e ov) (findUniqueVariablesRequired data)
      data [] _).1 = final
    rw [substLoop_text (mergedMap h e ov) (findUniqueVariablesRequired data)
      sgs data _ _ hscript, hfinal]
  · intro v hv hvm
    exact (substResult_rep_mem _ _ _ _ v).mpr ⟨hv, hvm⟩

/-- Claim C5: a per-call override entry that collides with a baseline
entry wins in the merged mapping used for substitution, and the call
leaves the engine's stored baseline mapping untouched (the merge runs on
a fresh copy): after the call the baseline cell still holds its old
contents, in particular still mapping the key to its old value. -/
theorem claimC5 (pc : PromptCache) (h : Heap) (e : TemplateEngine)
    (f : String) (ov : VMap) (opts : ProcessingOptions) (k a b : String)
    (hr : e.baselineRef < h.cells.length)
    (hbase : vget (h.read e.baselineRef) k = some a)
    (hov : vget ov.reverse k = some b) :
    vget (mergedMap h e (some ov)) k = some b ∧
    ((processTemplate pc h e f (some ov) opts).2).read e.baselineRef =
      h.read e.baselineRef ∧
    vget (((processTemplate pc h e f (some ov) opts).2).read e.baselineRef) k =
      some a := by
  refine ⟨?_, ?_, ?_⟩
  · rw [mergedMap_eq h e (some ov)]
    exact setVariables_lookup_some ov (h.read e.baselineRef) k b hov
  · exact processTemplate_heap_frame pc h e f (some ov) opts e.baselineRef hr
  · rw [processTemplate_heap_frame pc h e f (some ov) opts e.baselineRef hr]
    exact hbase

/-- Claim C9: `getRequiredVariables` never consults the engine's own
`initialized` flag: on an uninitialized engine it still succeeds with the
discovered token set whenever the shared store is ready and holds the
identifier, while `processTemplate` on the same engine fails with
`InitializationError`. -/
theorem claimC9 (pc : PromptCache) (h : Heap) (e : TemplateEngine)
    (f data : String) (ov : Option VMap) (opts : ProcessingOptions)
    (hpc : pc.initialized = true) (hf : vget pc.cache f = some data)
    (he : e.initialized = false) :
    getRequiredVariables pc e f = .ok (findUniqueVariablesRequired data) ∧
    (processTemplate pc h e f ov opts).1 = .error .initializationError := by
  constructor
  · rw [getRequiredVariables, getPrompt, if_neg (by simp [hpc]), hf]
  · rw [processTemplate, if_pos he]

/-- Concrete not-ready store used to exhibit claim C6's failure. -/
def pcNotReady : PromptCache :=
  { cache := []
    initialized := false
    promptsDirectory := defaultPromptsDirectory
    promptFileExtensions := defaultExtensions }

/-- Claim C6, counterexample: on a store that is not ready, `getPrompt`
fails with `InitializationError`, not with `FileNotFound` as the claim
states. -/
theorem claimC6_counterexample :
    getPrompt pcNotReady "a.txt" = .error .initializationError ∧
    getPrompt pcNotReady "a.txt" ≠ .error .fileNotFound := by
  constructor
  · rfl
  · decide

/-- Claim C6 (amended): `getPrompt` fails with `InitializationError` when
the store is not ready; when ready it fails with `FileNotFound` when the
identifier is absent from the cache, and returns the cached content when
present. -/
theorem claimC6 (pc : PromptCache) (f : String) :
    (pc.initialized = false → getPrompt pc f = .error .initializationError) ∧
    (pc.initialized = true → vget pc.cache f = none →
      getPrompt pc f = .error .fileNotFound) ∧
    (pc.initialized = true → ∀ c, vget pc.cache f = some c →
      getPrompt pc f = .ok c) := by
  refine ⟨?_, ?_, ?_⟩
  · intro hinit
    rw [getPrompt, if_pos hinit]
  · intro hinit habs
    rw [getPrompt, if_neg (by simp [hinit]), habs]
  · intro hinit c hc
    rw [getPrompt, if_neg (by simp [hinit]), hc]

/-- Claim C7: on an initialized store, for an identifier missing from the
cache, `getWithFallback` reads the configured source path directly: on a
successful read it returns that content and caches it, so a subsequent
`get` (and `has`) on the updated store sees the entry; it fails with
`FileNotFound` exactly when the fallback read also fails. -/
theorem claimC7 (disk : String → Option String) (pc : PromptCache)
    (f : String) (hinit : pc.initialized = true)
    (hmiss : vget pc.cache f = none) :
    (∀ c, disk (pathJoin pc.promptsDirectory f) = some c →
      ∃ pc2, getPromptWithFallback disk pc f = .ok (c, pc2) ∧
        getPrompt pc2 f = .ok c ∧ hasPrompt pc2 f = true) ∧
    (disk (pathJoin pc.promptsDirectory f) = none →
      getPromptWithFallback disk pc f = .error .fileNotFound) := by
  constructor
  · intro c hdisk
    refine ⟨{ pc with cache := vset pc.cache f c }, ?_, ?_, ?_⟩
    · rw [getPromptWithFallback, if_neg (by simp [hinit]), hmiss, hdisk]
    · rw [getPrompt, if_neg (by simp [hinit])]
      simp only [vget_vset_self]
    · simp [hasPrompt, vhas, vget_vset_self]
  · intro hdisk
    rw [getPromptWithFallback, if_neg (by simp [hinit]), hmiss, hdisk]

/-- Claim C8: once the store singleton exists, `getInstance` returns that
same instance whatever arguments it receives, and constructing another
engine — with any configuration — leaves the shared store exactly as it
was. -/
theorem claimC8 (inst : PromptCache) (dir : Option String)
    (exts : Option (List String)) (sys : Sys) (cfg : TemplateEngineConfig)
    (hs : sys.storeInstance = some inst) :
    getInstance (some inst) dir exts = (inst, some inst) ∧
    ((TemplateEngine.construct sys cfg).2).storeInstance = some inst := by
  constructor
  · rfl
  · rw [TemplateEngine.construct]
    simp only [getInstance, hs]

/-! ## Concrete instances discharging the claims' hypotheses. -/

/-- A ready store holding three small templates. -/
def wStore : PromptCache :=
  { cache := [("t.txt", "Hello {{name}}, you are a {{role}}."),
              ("x.txt", "{{x}} and {{x}}"),
              ("z.txt", "no tokens here")]
    initialized := true
    promptsDirectory := "src/prompts"
    promptFileExtensions := defaultExtensions }

/-- A heap whose single cell is an engine's baseline variable map. -/
def wHeap : Heap := ⟨[[("{{name}}", "Bob"), ("{{x}}", "a")]]⟩

/-- An initialized engine whose baseline lives at cell 0. -/
def wEngine : TemplateEngine :=
  { baselineRef := 0, enableCaching := true, initialized := true }

/-- An engine on which `initialize()` was never called. -/
def wEngineRaw : TemplateEngine :=
  { baselineRef := 0, enableCaching := true, initialized := false }

/-- The result produced for `t.txt` with validation disabled. -/
def wRes : TemplateProcessingResult :=
  { processedTemplate := "Hello Bob, you are a {{role}}."
    variablesFound := ["{{name}}", "{{role}}"]
    variablesReplaced := ["{{name}}"]
    undefinedVariables := ["{{role}}"] }

/-- A one-file source collaborator for the fallback read. -/
def wDisk : String → Option String :=
  fun p => if p = "src/prompts/Q.txt" then some "Q content" else none

/-- Shared global state holding the singleton. -/
def wSys : Sys := { heap := wHeap, storeInstance := some wStore }

/-- A configuration naming a different directory than the singleton's. -/
def wCfg : TemplateEngineConfig :=
  { promptsDirectory := "other/dir", variableDefinitions := [("{{k}}", "v")] }

theorem claimC1_witness :
    (processTemplate wStore wHeap wEngine "t.txt" none {}).1 =
      .error .variableNotDefined :=
  (claimC1 wStore wHeap wEngine "t.txt" none {}
    "Hello {{name}}, you are a {{role}}." "{{role}}" rfl (by decide)
    (by decide) (by decide) (by decide) (by decide)).1 (by decide)

theorem claimC2_witness :
    ("{{name}}" ∈ wRes.variablesFound ↔
      ("{{name}}" ∈ wRes.variablesReplaced ∨
        "{{name}}" ∈ wRes.undefinedVariables)) ∧
    ¬("{{name}}" ∈ wRes.variablesReplaced ∧
      "{{name}}" ∈ wRes.undefinedVariables) :=
  claimC2 wStore wHeap wEngine "t.txt" none { validateVariables := some false }
    wRes (by decide) (by decide) "{{name}}"

theorem claimC3_witness :
    (processTemplate wStore wHeap wEngine "z.txt" none
      { strictMode := some false }).1 =
      .ok { processedTemplate := "no tokens here"
            variablesFound := []
            variablesReplaced := []
            undefinedVariables := [] } :=
  (claimC3 wStore wHeap wEngine "z.txt" none { strictMode := some false }
    "no tokens here" rfl (by decide) (by decide)).2 rfl

/-- A store with a template using two distinct tokens, the first one
twice. -/
def wStoreM : PromptCache :=
  { cache := [("m.txt", "{{a}}-{{b}}-{{a}}")]
    initialized := true
    promptsDirectory := "src/prompts"
    promptFileExtensions := defaultExtensions }

/-- Baseline defining both tokens of `m.txt` with dollar-free values. -/
def wHeapM : Heap := ⟨[[("{{a}}", "X"), ("{{b}}", "Y")]]⟩

/-- Baseline whose value is the dollar pattern that `GetSubstitution`
turns back into the matched token. -/
def wHeapD : Heap := ⟨[[("{{x}}", "$&")]]⟩

theorem claimC4_witness :
    ∃ r, (processTemplate wStoreM wHeapM wEngine "m.txt" none {}).1 = .ok r ∧
      r.processedTemplate = "X-Y-X" ∧
      (∀ v ∈ findUniqueVariablesRequired "{{a}}-{{b}}-{{a}}",
        vhas (mergedMap wHeapM wEngine none) v = true →
          v ∈ r.variablesReplaced) :=
  claimC4 wStoreM wHeapM wEngine "m.txt" none {} "{{a}}-{{b}}-{{a}}" "X-Y-X"
    [[[], "-{{b}}-".data, []], ["X-".data, "-X".data]]
    rfl (by decide) (by decide) (by decide) (by decide) (by decide)

/-- Claim C4, counterexample to the original claim: with the token
defined as the value `$&`, the value does not land at the occurrences —
ECMAScript `GetSubstitution` re-inserts the matched token, so the
two-occurrence template comes back unchanged instead of holding the
value in both positions (while the token is still recorded as
replaced). -/
theorem claimC4_counterexample :
    (processTemplate wStore wHeapD wEngine "x.txt" none {}).1 =
      .ok { processedTemplate := "{{x}} and {{x}}"
            variablesFound := ["{{x}}"]
            variablesReplaced := ["{{x}}"]
            undefinedVariables := [] } ∧
    ("{{x}} and {{x}}" : String) ≠ "$& and $&" := by
  exact ⟨by decide, by decide⟩

theorem claimC5_witness :
    vget (mergedMap wHeap wEngine (some [("{{x}}", "b")])) "{{x}}" = some "b" ∧
    ((processTemplate wStore wHeap wEngine "x.txt"
        (some [("{{x}}", "b")]) {}).2).read 0 = wHeap.read 0 ∧
    vget (((processTemplate wStore wHeap wEngine "x.txt"
        (some [("{{x}}", "b")]) {}).2).read 0) "{{x}}" = some "a" :=
  claimC5 wStore wHeap wEngine "x.txt" [("{{x}}", "b")] {} "{{x}}" "a" "b"
    (by decide) (by decide) (by decide)

theorem claimC6_witness :
    getPrompt wStore "missing.txt" = .error .fileNotFound :=
  (claimC6 wStore "missing.txt").2.1 rfl (by decide)

theorem claimC7_witness :
    ∃ pc2, getPromptWithFallback wDisk wStore "Q.txt" = .ok ("Q content", pc2) ∧
      getPrompt pc2 "Q.txt" = .ok "Q content" ∧
      hasPrompt pc2 "Q.txt" = true :=
  (claimC7 wDisk wStore "Q.txt" rfl (by decide)).1 "Q content" (by decide)

theorem claimC8_witness :
    getInstance (some wStore) (some "other/dir") none = (wStore, some wStore) ∧
    ((TemplateEngine.construct wSys wCfg).2).storeInstance = some wStore :=
  claimC8 wStore (some "other/dir") none wSys wCfg rfl

theorem claimC9_witness :
    getRequiredVariables wStore wEngineRaw "t.txt" =
      .ok ["{{name}}", "{{role}}"] ∧
    (processTemplate wStore wHeap wEngineRaw "t.txt" none {}).1 =
      .error .initializationError :=
  claimC9 wStore wHeap wEngineRaw "t.txt"
    "Hello {{name}}, you are a {{role}}." none {} rfl (by decide) rfl

theorem claimC10_witness :
    ((processTemplate wStore wHeap wEngine "t.txt" none {}).2).read 0 =
      wHeap.read 0 :=
  claimC10 wStore wHeap wEngine "t.txt" none {} .variableNotDefined
    (by decide) (by decide)

end PromptEngine
